/-
  Verification of workout-sync-notion.

  Shallow embedding of the two scripts:
  * src/cleanup-duplicates.py  (Duplicate Resolver)
  * src/garmin_session_auth.py (Session Manager)

  Records are modelled after the `activity_info` dictionaries that
  `get_all_activities_with_duplicates` builds; timestamps are the ISO-8601
  strings Notion returns, compared with Python's lexicographic string order
  (modelled explicitly as `pyStrLe`, lexicographic on code points, which is
  Python's `<=` on `str`).  Fetch order is made explicit by pairing every
  record with its position in the accumulated `all_activities` list
  (`List.enum`).

  External effects (Notion/Garmin API calls, wall-clock time, the garth token
  serializer) are oracles passed as explicit parameters; the local session
  file is explicit state.  Machine-level details (pickle byte layout) stay
  opaque: the login flow works on the parsed session record, while
  export/import work on the raw file bytes, exactly as the code does.
-/
import Mathlib

namespace WorkoutSync

/-! ## Python string comparison

`activities.sort(key=lambda x: x["created_time"])` compares the ISO-8601
timestamp strings with Python's `<`/`<=`, which is lexicographic on Unicode
code points. -/

/-- Lexicographic comparison of code-point sequences: Python's `<=` on
strings, restricted to their character lists. -/
def lexLe : List Char → List Char → Bool
  | [], _ => true
  | _ :: _, [] => false
  | a :: as, b :: bs =>
    if a.toNat < b.toNat then true
    else if b.toNat < a.toNat then false
    else lexLe as bs

/-- Python's `a <= b` on strings. -/
def pyStrLe (a b : String) : Bool :=
  lexLe a.data b.data

/-- Python's `a < b` on strings (`a < b ↔ ¬ b <= a` in a total order). -/
def pyStrLt (a b : String) : Bool :=
  !pyStrLe b a

/-! ## Duplicate Resolver (src/cleanup-duplicates.py) -/

/-- One activity record as extracted from a Notion query result
(`activity_info` in `get_all_activities_with_duplicates`).  The `id` is the
Notion page id; `created_time` / `last_edited_time` are the server-assigned
ISO-8601 timestamp strings. -/
structure ActivityInfo where
  id : String
  date : String
  activity_type : String
  activity_name : String
  created_time : String
  last_edited_time : String
  deriving DecidableEq, Repr

/-- Computes `unique_key = f"{date}|{activity_type}|{activity_name}"`. -/
def unique_key (a : ActivityInfo) : String :=
  a.date ++ "|" ++ a.activity_type ++ "|" ++ a.activity_name

/-- The pagination loop of `get_all_activities_with_duplicates`: every page of
results is appended to `all_activities` in the order the server returns the
pages, so the fetched sequence is the concatenation of the pages. -/
def fetchAll (pages : List (List ActivityInfo)) : List ActivityInfo :=
  pages.flatten

/-- A fetched record together with its fetch position (its index in
`all_activities`). -/
abbrev FetchedRec := Nat × ActivityInfo

/-- The fetched sequence with explicit fetch positions. -/
def enumerated (recs : List ActivityInfo) : List FetchedRec :=
  recs.enum

/-- The bucket `duplicates_map[k]`: the fetched records whose composite key is
`k`, in fetch order (the defaultdict appends while iterating the fetched
sequence). -/
def groupFor (recs : List ActivityInfo) (k : String) : List FetchedRec :=
  (enumerated recs).filter (fun p => decide (unique_key p.2 = k))

/-- The keys of `duplicates_map` in insertion order: first-occurrence order of
the composite keys over the fetched sequence (Python dicts iterate in key
insertion order). -/
def dedupFirst : List String → List String
  | [] => []
  | k :: ks => k :: (dedupFirst ks).filter (fun x => decide (x ≠ k))

/-- One step of the stable sort `activities.sort(key=lambda x:
x["created_time"])`: insert a record into an already sorted suffix of the
bucket, before the first record whose `created_time` is not smaller.  The
record being inserted precedes the already sorted records in fetch order, so
placing it before the first `y` with `x ≤ y` is exactly the stability of
Python's sort. -/
def insertCT (x : FetchedRec) : List FetchedRec → List FetchedRec
  | [] => [x]
  | y :: ys =>
    if pyStrLe x.2.created_time y.2.created_time then x :: y :: ys
    else y :: insertCT x ys

/-- The stable sort by `created_time` used in `identify_duplicates`. -/
def sortCT : List FetchedRec → List FetchedRec
  | [] => []
  | x :: xs => insertCT x (sortCT xs)

/-- Function `identify_duplicates`: for every key of `duplicates_map` whose bucket has
more than one record, stable-sort the bucket by `created_time` and mark all
but the first record for removal (`activities[1:]`); the removal list
accumulates the buckets in key-insertion order. -/
def identify_duplicates (recs : List ActivityInfo) : List FetchedRec :=
  ((dedupFirst (recs.map unique_key)).map (fun k =>
    let g := groupFor recs k
    if 1 < g.length then (sortCT g).drop 1 else [])).flatten

/-- The spec-side ordering on fetched records: `p` sorts strictly before `q`
by creation timestamp, with fetch order breaking ties. -/
def sortsBefore (p q : FetchedRec) : Prop :=
  pyStrLt p.2.created_time q.2.created_time = true ∨
    (p.2.created_time = q.2.created_time ∧ p.1 < q.1)

/-- Outcome of the loop in `remove_duplicates`, instrumented with the list of
page ids an archive request was issued for (in order of issue) and the final
`removed_count`. -/
structure RemoveOutcome where
  attempted : List String
  removed_count : Nat
  deriving Repr, DecidableEq

/-- The loop body of `remove_duplicates`, starting at position `i`; `ok i`
tells whether the `i`-th archive request (`client.pages.update(...,
archived=True)`) succeeds or raises.  A raise is caught (logged) and the loop
continues with the next record. -/
def removeLoop (ok : Nat → Bool) : List FetchedRec → Nat → RemoveOutcome
  | [], _ => ⟨[], 0⟩
  | d :: ds, i =>
    let rest := removeLoop ok ds (i + 1)
    ⟨d.2.id :: rest.attempted, (if ok i then 1 else 0) + rest.removed_count⟩

/-- Function `remove_duplicates`: early return when the list is empty, otherwise
archive each record in list order, counting successes. -/
def remove_duplicates (ok : Nat → Bool) (dups : List FetchedRec) : RemoveOutcome :=
  if dups.isEmpty then ⟨[], 0⟩ else removeLoop ok dups 0

/-- ASCII fragment of Python's `str.lower` (the only characters compared
against are `"yes"`/`"y"`). -/
def pyLowerChar (c : Char) : Char :=
  if 65 ≤ c.toNat ∧ c.toNat ≤ 90 then Char.ofNat (c.toNat + 32) else c

/-- Python's `str.strip` whitespace class (ASCII part). -/
def pyWhitespace (c : Char) : Bool :=
  decide (c = ' ') || decide (c = '\t') || decide (c = '\n') ||
    decide (c = '\r') || decide (c = '\x0b') || decide (c = '\x0c')

/-- Python `s.strip()`: drop leading and trailing whitespace. -/
def pyStrip (l : List Char) : List Char :=
  ((l.dropWhile pyWhitespace).reverse.dropWhile pyWhitespace).reverse

/-- Computes `confirm.strip().lower()`. -/
def normalizeAnswer (s : String) : String :=
  String.mk ((pyStrip s.data).map pyLowerChar)

/-- Tests `confirm.strip().lower() in ["yes", "y"]`. -/
def affirmative (s : String) : Bool :=
  decide (normalizeAnswer s = "yes") || decide (normalizeAnswer s = "y")

/-- Observable outcome of `main` in cleanup-duplicates.py, instrumented with
whether the database was fetched/analyzed and which archive requests were
issued. -/
structure MainOutcome where
  fetched : Bool
  archiveCalls : List String
  deriving Repr, DecidableEq

/-- The `main` flow of cleanup-duplicates.py: first confirmation gate, then
fetch + analysis, then (when duplicates were found) the second confirmation
gate, then `remove_duplicates`. -/
def mainFlow (confirm1 confirm2 : String) (pages : List (List ActivityInfo))
    (ok : Nat → Bool) : MainOutcome :=
  if ¬ affirmative confirm1 then ⟨false, []⟩
  else
    let recs := fetchAll pages
    let dups := identify_duplicates recs
    if dups.isEmpty then ⟨true, []⟩
    else if ¬ affirmative confirm2 then ⟨true, []⟩
    else ⟨true, (remove_duplicates ok dups).attempted⟩

/-! ## Session Manager (src/garmin_session_auth.py)

Wall-clock instants are integers in microseconds (the resolution of Python's
`datetime`/`timedelta` arithmetic); `datetime.now() - session_data["timestamp"]`
is then plain integer subtraction, and `timedelta(days=360)` is a constant. -/

def microsecondsPerDay : Int := 86400000000

/-- Constant `timedelta(days=360)`, the refresh threshold. -/
def sessionMaxAge : Int := 360 * microsecondsPerDay

/-- The parsed contents of the pickled session file: the garth token blob
(`garth.dumps()` string), the save-time timestamp, and the account email. -/
structure SessionData where
  session : String
  timestamp : Int
  email : Option String
  deriving DecidableEq, Repr

/-- The persisted session file (parsed view) together with its permission
bits. -/
structure SessionFile where
  data : SessionData
  mode : Nat
  deriving DecidableEq, Repr

/-- Result of the liveness probe `self.garmin.get_full_name()`: it either
returns, or raises `GarminConnectAuthenticationError`. -/
inductive ProbeOutcome
  | ok
  | authError
  deriving DecidableEq, Repr

/-- Outcome of `_login_with_session`, instrumented with whether the liveness
probe was issued against the remote API.  A successful result carries the
garth state of the returned client (the client is reconstructed from the
stored blob by `self.garmin.garth.loads(session_data["session"])`). -/
structure SessionLoginOutcome where
  result : Except String String
  probeIssued : Bool
  deriving Repr

/-- Method `_login_with_session`: age check first (raising before the client is even
constructed), then reconstruct the client from the blob and issue the probe. -/
def loginWithSession (data : SessionData) (now : Int) (probe : ProbeOutcome) :
    SessionLoginOutcome :=
  let session_age := now - data.timestamp
  if sessionMaxAge < session_age then
    ⟨Except.error "Session too old", false⟩
  else
    match probe with
    | ProbeOutcome.ok => ⟨Except.ok data.session, true⟩
    | ProbeOutcome.authError => ⟨Except.error "Session expired or invalid", true⟩

/-- Python truthiness of a credential: `not self.email` is `True` exactly for
`None` and the empty string. -/
def credTruthy : Option String → Bool
  | none => false
  | some s => decide (s ≠ "")

/-- Credentials held by a `GarminSessionAuth` instance (after the
`email or os.getenv(...)` coalescing in `__init__`). -/
structure AuthConfig where
  email : Option String
  password : Option String
  deriving DecidableEq, Repr

/-- Outcome of `_fresh_login`, instrumented with whether a remote
authentication attempt (`Garmin(email, password).login()`) was made, and with
the session file state afterwards. -/
structure FreshLoginOutcome where
  result : Except String String
  authAttempted : Bool
  fileAfter : Option SessionFile
  deriving Repr

/-- Method `_fresh_login`: `ValueError` when either credential is unavailable,
*before* any remote call; otherwise authenticate remotely (outcome given by
the `remoteOk` oracle) and on success `_save_session`: write a new session
record `{session: garth.dumps(), timestamp: now, email}` (the `dump` oracle is
the `garth.dumps()` string) and `chmod 0o600` it.  The returned client is the
freshly authenticated one, represented by its garth state. -/
def fresh_login (cfg : AuthConfig) (remoteOk : Bool) (dump : String) (now : Int)
    (fileBefore : Option SessionFile) : FreshLoginOutcome :=
  if !credTruthy cfg.email || !credTruthy cfg.password then
    ⟨Except.error "Email and password required for fresh login", false, fileBefore⟩
  else if remoteOk then
    ⟨Except.ok dump, true, some ⟨⟨dump, now, cfg.email⟩, 0o600⟩⟩
  else
    ⟨Except.error "Authentication failed", true, fileBefore⟩

/-- Outcome of `login`, instrumented with whether the liveness probe was
issued, whether a remote fresh-authentication attempt was made, and whether
the fresh-login path was taken at all. -/
structure LoginOutcome where
  result : Except String String
  probeIssued : Bool
  authAttempted : Bool
  usedFresh : Bool
  fileAfter : Option SessionFile
  deriving Repr

/-- Method `login(force_refresh)`: try `_login_with_session` when not forced and the
session file exists; any exception from it falls through to `_fresh_login`. -/
def login (cfg : AuthConfig) (fileBefore : Option SessionFile) (force_refresh : Bool)
    (now : Int) (probe : ProbeOutcome) (remoteOk : Bool) (dump : String) :
    LoginOutcome :=
  match fileBefore, force_refresh with
  | some sf, false =>
    let s := loginWithSession sf.data now probe
    match s.result with
    | Except.ok client => ⟨Except.ok client, s.probeIssued, false, false, fileBefore⟩
    | Except.error _ =>
      let f := fresh_login cfg remoteOk dump now fileBefore
      ⟨f.result, s.probeIssued, f.authAttempted, true, f.fileAfter⟩
  | _, _ =>
    let f := fresh_login cfg remoteOk dump now fileBefore
    ⟨f.result, false, f.authAttempted, true, f.fileAfter⟩

/-! ### Export / import (raw file bytes)

`export_session_for_github` / `import_session_from_github` treat the session
file as opaque bytes; a byte is a `Nat < 256`. -/

/-- The standard base64 alphabet used by Python's `base64.b64encode`. -/
def base64Alphabet : List Char :=
  "ABCDEFGHIJKLMNOPQRSTUVWXYZabcdefghijklmnopqrstuvwxyz0123456789+/".data

/-- Character for a 6-bit value. -/
def b64Char (n : Nat) : Char :=
  base64Alphabet.getD n 'A'

/-- The 6-bit value of an alphabet character. -/
def b64Index (c : Char) : Nat :=
  base64Alphabet.indexOf c

/-- Python `base64.b64encode`: encode 3-byte chunks into 4 characters, padding a
final 1- or 2-byte chunk with `=`. -/
def b64Encode : List Nat → List Char
  | a :: b :: c :: rest =>
    b64Char (a / 4) :: b64Char (a % 4 * 16 + b / 16) ::
      b64Char (b % 16 * 4 + c / 64) :: b64Char (c % 64) :: b64Encode rest
  | [a, b] => [b64Char (a / 4), b64Char (a % 4 * 16 + b / 16), b64Char (b % 16 * 4), '=']
  | [a] => [b64Char (a / 4), b64Char (a % 4 * 16), '=', '=']
  | [] => []

/-- Python `base64.b64decode` on well-formed input: decode 4-character groups,
honouring `=` padding in the final group. -/
def b64Decode : List Char → List Nat
  | c1 :: c2 :: c3 :: c4 :: rest =>
    if c3 = '=' then
      [b64Index c1 * 4 + b64Index c2 / 16]
    else if c4 = '=' then
      [b64Index c1 * 4 + b64Index c2 / 16,
       b64Index c2 % 16 * 16 + b64Index c3 / 4]
    else
      (b64Index c1 * 4 + b64Index c2 / 16) ::
        (b64Index c2 % 16 * 16 + b64Index c3 / 4) ::
        (b64Index c3 % 4 * 64 + b64Index c4) :: b64Decode rest
  | _ => []

/-- The session file seen as raw bytes (what `open(self.session_file, "rb")`
reads), with its permission bits. -/
structure ByteFile where
  bytes : List Nat
  mode : Nat
  deriving DecidableEq, Repr

/-- Outcome of `export_session_for_github`, instrumented with whether the
session file was read and with the file state afterwards (the function only
reads). -/
structure ExportOutcome where
  result : Except String (List Char)
  fileRead : Bool
  fileAfter : Option ByteFile
  deriving Repr

/-- Method `export_session_for_github`: raise when no session file exists (before
any read or print); otherwise read the raw bytes, base64-encode them, print
and return the encoded string. -/
def export_session_for_github (file : Option ByteFile) : ExportOutcome :=
  match file with
  | none => ⟨Except.error "No session file exists. Login first.", false, none⟩
  | some f => ⟨Except.ok (b64Encode f.bytes), true, some f⟩

/-- Method `import_session_from_github`: decode the base64 string, overwrite the
session file with the decoded bytes, and `chmod 0o600` it. -/
def import_session_from_github (session_b64 : List Char) : ByteFile :=
  ⟨b64Decode session_b64, 0o600⟩



/-! ## Concrete records (the scenario of spec section 8, plus a tie) -/

def demoRun1 : ActivityInfo :=
  ⟨"id1", "2024-01-01", "Run", "Morning Run", "t=1", ""⟩

def demoRun2 : ActivityInfo :=
  ⟨"id2", "2024-01-01", "Run", "Morning Run", "t=2", ""⟩

def demoRun3 : ActivityInfo :=
  ⟨"id3", "2024-01-02", "Run", "Evening Run", "t=3", ""⟩

def demoTieA : ActivityInfo :=
  ⟨"idA", "2024-03-05", "Swim", "Laps", "t=9", ""⟩

def demoTieB : ActivityInfo :=
  ⟨"idB", "2024-03-05", "Swim", "Laps", "t=9", ""⟩

/-! ## Order theory for the Python string comparison -/

theorem lexLe_refl (l : List Char) : lexLe l l = true := by
  induction l with
  | nil => rfl
  | cons a as ih => simp [lexLe, ih]

theorem lexLe_total (a b : List Char) : lexLe a b = true ∨ lexLe b a = true := by
  induction a generalizing b with
  | nil => left; rfl
  | cons x xs ih =>
    cases b with
    | nil => right; rfl
    | cons y ys =>
      by_cases h1 : x.toNat < y.toNat
      · left; simp [lexLe, h1]
      · by_cases h2 : y.toNat < x.toNat
        · right; simp [lexLe, h2]
        · rcases ih ys with h | h
          · left; simp [lexLe, h1, h2, h]
          · right; simp [lexLe, h1, h2, h]

theorem lexLe_head {x y : Char} {xs ys : List Char}
    (h : lexLe (x :: xs) (y :: ys) = true) : x.toNat ≤ y.toNat := by
  by_cases h1 : x.toNat < y.toNat
  · omega
  · by_cases h2 : y.toNat < x.toNat
    · simp [lexLe, h1, h2] at h
    · omega

theorem lexLe_trans {a b c : List Char} (h1 : lexLe a b = true)
    (h2 : lexLe b c = true) : lexLe a c = true := by
  induction a generalizing b c with
  | nil => rfl
  | cons x xs ih =>
    cases b with
    | nil => simp [lexLe] at h1
    | cons y ys =>
      cases c with
      | nil => simp [lexLe] at h2
      | cons z zs =>
        have hxy := lexLe_head h1
        have hyz := lexLe_head h2
        by_cases hx : x.toNat < z.toNat
        · simp [lexLe, hx]
        · have hxz : x.toNat = z.toNat := by omega
          have exy : x.toNat = y.toNat := by omega
          have h1' : lexLe xs ys = true := by
            simp only [lexLe] at h1
            rw [if_neg (by omega), if_neg (by omega)] at h1
            exact h1
          have h2' : lexLe ys zs = true := by
            simp only [lexLe] at h2
            rw [if_neg (by omega), if_neg (by omega)] at h2
            exact h2
          simp only [lexLe]
          rw [if_neg (by omega), if_neg (by omega)]
          exact ih h1' h2'

theorem lexLe_antisymm {a b : List Char} (h1 : lexLe a b = true)
    (h2 : lexLe b a = true) : a = b := by
  induction a generalizing b with
  | nil =>
    cases b with
    | nil => rfl
    | cons y ys => simp [lexLe] at h2
  | cons x xs ih =>
    cases b with
    | nil => simp [lexLe] at h1
    | cons y ys =>
      have hxy := lexLe_head h1
      have hyx := lexLe_head h2
      have hx : x.toNat = y.toNat := by omega
      have hchar : x = y := by
        have hc := congrArg Char.ofNat hx
        rwa [Char.ofNat_toNat, Char.ofNat_toNat] at hc
      subst hchar
      have h1' : lexLe xs ys = true := by
        simp only [lexLe] at h1
        rw [if_neg (by omega), if_neg (by omega)] at h1
        exact h1
      have h2' : lexLe ys xs = true := by
        simp only [lexLe] at h2
        rw [if_neg (by omega), if_neg (by omega)] at h2
        exact h2
      rw [ih h1' h2']

theorem pyStrLe_refl (a : String) : pyStrLe a a = true :=
  lexLe_refl a.data

theorem pyStrLe_total (a b : String) : pyStrLe a b = true ∨ pyStrLe b a = true :=
  lexLe_total a.data b.data

theorem pyStrLe_trans {a b c : String} (h1 : pyStrLe a b = true)
    (h2 : pyStrLe b c = true) : pyStrLe a c = true :=
  lexLe_trans h1 h2

theorem pyStrLe_antisymm {a b : String} (h1 : pyStrLe a b = true)
    (h2 : pyStrLe b a = true) : a = b := by
  have hd : a.data = b.data := lexLe_antisymm h1 h2
  cases a
  cases b
  exact congrArg String.mk hd

theorem pyStrLt_iff {a b : String} :
    pyStrLt a b = true ↔ pyStrLe a b = true ∧ a ≠ b := by
  constructor
  · intro h
    have hn : pyStrLe b a = false := by
      simpa [pyStrLt] using h
    refine ⟨?_, ?_⟩
    · rcases pyStrLe_total a b with hab | hba
      · exact hab
      · rw [hba] at hn; exact absurd hn (by simp)
    · intro he
      subst he
      rw [pyStrLe_refl] at hn
      exact absurd hn (by simp)
  · rintro ⟨hle, hne⟩
    have hn : pyStrLe b a = false := by
      cases hba : pyStrLe b a
      · rfl
      · exact absurd (pyStrLe_antisymm hle hba) hne
    simp [pyStrLt, hn]

theorem pyStrLt_irrefl (a : String) : pyStrLt a a = false := by
  simp [pyStrLt, pyStrLe_refl]

theorem pyStrLt_asymm {a b : String} (h1 : pyStrLt a b = true)
    (h2 : pyStrLt b a = true) : False := by
  rcases pyStrLt_iff.mp h1 with ⟨hab, hne⟩
  rcases pyStrLt_iff.mp h2 with ⟨hba, _⟩
  exact hne (pyStrLe_antisymm hab hba)

theorem pyStrLt_of_not_le {a b : String} (h : pyStrLe a b = false) :
    pyStrLt b a = true := by
  simp [pyStrLt, h]

theorem pyStrLe_of_lt {a b : String} (h : pyStrLt a b = true) :
    pyStrLe a b = true :=
  (pyStrLt_iff.mp h).1

/-! ## The strict ordering on fetched records -/

theorem sortsBefore_irrefl (p : FetchedRec) : ¬ sortsBefore p p := by
  rintro (h | ⟨_, h⟩)
  · rw [pyStrLt_irrefl] at h
    exact absurd h (by simp)
  · exact Nat.lt_irrefl _ h

theorem sortsBefore_asymm {p q : FetchedRec} (h1 : sortsBefore p q)
    (h2 : sortsBefore q p) : False := by
  rcases h1 with h1 | ⟨e1, i1⟩ <;> rcases h2 with h2 | ⟨e2, i2⟩
  · exact pyStrLt_asymm h1 h2
  · rw [e2] at h1
    rw [pyStrLt_irrefl] at h1
    exact absurd h1 (by simp)
  · rw [e1] at h2
    rw [pyStrLt_irrefl] at h2
    exact absurd h2 (by simp)
  · omega

theorem sortsBefore_ne {p q : FetchedRec} (h : sortsBefore p q) : p ≠ q := by
  rintro rfl
  exact sortsBefore_irrefl p h

theorem sortsBefore_le {p q : FetchedRec} (h : sortsBefore p q) :
    pyStrLe p.2.created_time q.2.created_time = true := by
  rcases h with h | ⟨e, _⟩
  · exact pyStrLe_of_lt h
  · rw [e]
    exact pyStrLe_refl _

theorem sortsBefore_of_le_of_idx {p q : FetchedRec}
    (hle : pyStrLe p.2.created_time q.2.created_time = true) (hidx : p.1 < q.1) :
    sortsBefore p q := by
  by_cases he : p.2.created_time = q.2.created_time
  · exact Or.inr ⟨he, hidx⟩
  · exact Or.inl (pyStrLt_iff.mpr ⟨hle, he⟩)


/-! ## The stable sort -/

theorem mem_insertCT {x z : FetchedRec} {l : List FetchedRec} :
    z ∈ insertCT x l ↔ z = x ∨ z ∈ l := by
  induction l with
  | nil => simp [insertCT]
  | cons y ys ih =>
    simp only [insertCT]
    split
    · simp [List.mem_cons]
    · simp only [List.mem_cons, ih]
      tauto

theorem insertCT_perm (x : FetchedRec) (l : List FetchedRec) :
    List.Perm (insertCT x l) (x :: l) := by
  induction l with
  | nil => exact List.Perm.refl _
  | cons y ys ih =>
    simp only [insertCT]
    split
    · exact List.Perm.refl _
    · exact (ih.cons y).trans (List.Perm.swap x y ys)

theorem insertCT_pairwise {x : FetchedRec} {l : List FetchedRec}
    (hx : ∀ y ∈ l, x.1 < y.1) (hl : l.Pairwise sortsBefore) :
    (insertCT x l).Pairwise sortsBefore := by
  induction l with
  | nil => simp [insertCT]
  | cons y ys ih =>
    rcases List.pairwise_cons.mp hl with ⟨hy, hys⟩
    simp only [insertCT]
    split
    case isTrue hle =>
      refine List.pairwise_cons.mpr ⟨?_, hl⟩
      intro z hz
      have hxz : pyStrLe x.2.created_time z.2.created_time = true := by
        rcases List.mem_cons.mp hz with rfl | hz'
        · exact hle
        · exact pyStrLe_trans hle (sortsBefore_le (hy z hz'))
      exact sortsBefore_of_le_of_idx hxz (hx z hz)
    case isFalse hgt =>
      have hyx : pyStrLt y.2.created_time x.2.created_time = true :=
        pyStrLt_of_not_le (by simpa using hgt)
      refine List.pairwise_cons.mpr
        ⟨?_, ih (fun z hz => hx z (List.mem_cons_of_mem _ hz)) hys⟩
      intro z hz
      rcases mem_insertCT.mp hz with rfl | hz'
      · exact Or.inl hyx
      · exact hy z hz'

theorem sortCT_perm (l : List FetchedRec) : List.Perm (sortCT l) l := by
  induction l with
  | nil => exact List.Perm.refl _
  | cons x xs ih => exact (insertCT_perm x (sortCT xs)).trans (ih.cons x)

theorem sortCT_pairwise {l : List FetchedRec}
    (hl : l.Pairwise (fun p q => p.1 < q.1)) :
    (sortCT l).Pairwise sortsBefore := by
  induction l with
  | nil => simp [sortCT]
  | cons x xs ih =>
    rcases List.pairwise_cons.mp hl with ⟨hx, hxs⟩
    exact insertCT_pairwise
      (fun y hy => hx y ((sortCT_perm xs).mem_iff.mp hy)) (ih hxs)

/-! ## Groups and keys -/

theorem enumerated_pairwise (recs : List ActivityInfo) :
    (enumerated recs).Pairwise (fun p q : FetchedRec => p.1 < q.1) := by
  have h := List.pairwise_lt_range recs.length
  rw [← List.enum_map_fst] at h
  exact List.pairwise_map.mp h

theorem groupFor_pairwise (recs : List ActivityInfo) (k : String) :
    (groupFor recs k).Pairwise (fun p q : FetchedRec => p.1 < q.1) :=
  List.Pairwise.sublist (List.filter_sublist _) (enumerated_pairwise recs)

theorem mem_groupFor {recs : List ActivityInfo} {k : String} {p : FetchedRec} :
    p ∈ groupFor recs k ↔ p ∈ enumerated recs ∧ unique_key p.2 = k := by
  simp [groupFor, List.mem_filter]

theorem mem_dedupFirst {l : List String} {x : String} :
    x ∈ dedupFirst l ↔ x ∈ l := by
  induction l with
  | nil => simp [dedupFirst]
  | cons k ks ih =>
    simp only [dedupFirst, List.mem_cons, List.mem_filter, ih,
      decide_eq_true_eq]
    constructor
    · rintro (rfl | ⟨h, _⟩)
      · exact Or.inl rfl
      · exact Or.inr h
    · rintro (rfl | h)
      · exact Or.inl rfl
      · by_cases he : x = k
        · exact Or.inl he
        · exact Or.inr ⟨h, he⟩

theorem nodup_dedupFirst (l : List String) : (dedupFirst l).Nodup := by
  induction l with
  | nil => simp [dedupFirst]
  | cons k ks ih =>
    refine List.nodup_cons.mpr ⟨?_, ih.filter _⟩
    intro hk
    rcases List.mem_filter.mp hk with ⟨_, hne⟩
    simp at hne

/-! ## Structure of identify_duplicates -/

theorem identify_duplicates_eq (recs : List ActivityInfo) :
    identify_duplicates recs =
      ((dedupFirst (recs.map unique_key)).map
        (fun k => (sortCT (groupFor recs k)).drop 1)).flatten := by
  unfold identify_duplicates
  congr 1
  apply List.map_congr_left
  intro k _
  by_cases h : 1 < (groupFor recs k).length
  · simp [h]
  · have hlen : (sortCT (groupFor recs k)).length ≤ 1 := by
      rw [(sortCT_perm _).length_eq]
      omega
    simp [h, List.drop_eq_nil_of_le hlen]

theorem mem_identify {recs : List ActivityInfo} {p : FetchedRec} :
    p ∈ identify_duplicates recs ↔
      ∃ k, k ∈ dedupFirst (recs.map unique_key) ∧
        p ∈ (sortCT (groupFor recs k)).drop 1 := by
  rw [identify_duplicates_eq]
  simp only [List.mem_flatten, List.mem_map]
  constructor
  · rintro ⟨l, ⟨k, hk, rfl⟩, hp⟩
    exact ⟨k, hk, hp⟩
  · rintro ⟨k, hk, hp⟩
    exact ⟨_, ⟨k, hk, rfl⟩, hp⟩

theorem mem_drop_one_sorted {l : List FetchedRec} (hs : l.Pairwise sortsBefore)
    {p : FetchedRec} :
    p ∈ l.drop 1 ↔ p ∈ l ∧ ∃ q ∈ l, sortsBefore q p := by
  cases l with
  | nil => simp
  | cons m rest =>
    rcases List.pairwise_cons.mp hs with ⟨hm, _⟩
    have hd : List.drop 1 (m :: rest) = rest := rfl
    rw [hd]
    constructor
    · intro hp
      exact ⟨List.mem_cons_of_mem _ hp, m, List.mem_cons_self _ _, hm p hp⟩
    · rintro ⟨hpl, q, hq, hqp⟩
      rcases List.mem_cons.mp hpl with rfl | hp
      · rcases List.mem_cons.mp hq with rfl | hq'
        · exact absurd hqp (sortsBefore_irrefl q)
        · exact absurd hqp (fun h => sortsBefore_asymm (hm q hq') h)
      · exact hp


theorem snd_mem_of_mem_enumerated {recs : List ActivityInfo} {p : FetchedRec}
    (hp : p ∈ enumerated recs) : p.2 ∈ recs := by
  have h := List.mem_map_of_mem Prod.snd hp
  rwa [show enumerated recs = recs.enum from rfl, List.enum_map_snd] at h

theorem key_mem_keys {recs : List ActivityInfo} {p : FetchedRec}
    (hp : p ∈ enumerated recs) :
    unique_key p.2 ∈ dedupFirst (recs.map unique_key) :=
  mem_dedupFirst.mpr (List.mem_map_of_mem unique_key (snd_mem_of_mem_enumerated hp))

theorem mem_sortCT_group {recs : List ActivityInfo} {k : String} {p : FetchedRec} :
    p ∈ sortCT (groupFor recs k) ↔ p ∈ groupFor recs k :=
  (sortCT_perm _).mem_iff

theorem mem_identify_iff {recs : List ActivityInfo} {p : FetchedRec}
    (hp : p ∈ enumerated recs) :
    p ∈ identify_duplicates recs ↔
      ∃ q ∈ enumerated recs, unique_key q.2 = unique_key p.2 ∧ sortsBefore q p := by
  constructor
  · intro h
    rcases mem_identify.mp h with ⟨k, _, hdrop⟩
    have hsorted := sortCT_pairwise (groupFor_pairwise recs k)
    rcases (mem_drop_one_sorted hsorted).mp hdrop with ⟨hpg, q, hqg, hqp⟩
    rcases mem_groupFor.mp (mem_sortCT_group.mp hqg) with ⟨hqe, hqk⟩
    rcases mem_groupFor.mp (mem_sortCT_group.mp hpg) with ⟨_, hpk⟩
    exact ⟨q, hqe, by rw [hqk, hpk], hqp⟩
  · rintro ⟨q, hq, hkey, hqp⟩
    apply mem_identify.mpr
    refine ⟨unique_key p.2, key_mem_keys hp, ?_⟩
    have hsorted := sortCT_pairwise (groupFor_pairwise recs (unique_key p.2))
    apply (mem_drop_one_sorted hsorted).mpr
    exact ⟨mem_sortCT_group.mpr (mem_groupFor.mpr ⟨hp, rfl⟩), q,
      mem_sortCT_group.mpr (mem_groupFor.mpr ⟨hq, hkey⟩), hqp⟩

theorem retained_min {recs : List ActivityInfo} {k : String}
    (hne : groupFor recs k ≠ []) :
    ∃ m ∈ groupFor recs k, m ∉ identify_duplicates recs ∧
      ∀ q ∈ groupFor recs k, q ≠ m →
        sortsBefore m q ∧ q ∈ identify_duplicates recs := by
  have hsorted := sortCT_pairwise (groupFor_pairwise recs k)
  have hperm := sortCT_perm (groupFor recs k)
  cases hsort : sortCT (groupFor recs k) with
  | nil =>
    rw [hsort] at hperm
    exact absurd (List.Perm.eq_nil hperm.symm) hne
  | cons m rest =>
    rw [hsort] at hsorted hperm
    rcases List.pairwise_cons.mp hsorted with ⟨hm, _⟩
    have hmg : m ∈ groupFor recs k := hperm.mem_iff.mp (List.mem_cons_self m rest)
    rcases mem_groupFor.mp hmg with ⟨hme, hmk⟩
    refine ⟨m, hmg, ?_, ?_⟩
    · intro hmem
      rcases mem_identify.mp hmem with ⟨k', _, hdrop⟩
      rcases mem_groupFor.mp
          ((sortCT_perm _).mem_iff.mp (List.mem_of_mem_drop hdrop)) with ⟨_, hmk'⟩
      have hkk : k' = k := by rw [← hmk', hmk]
      subst hkk
      rw [hsort] at hdrop
      have hdrop' : m ∈ rest := by simpa using hdrop
      exact sortsBefore_irrefl m (hm m hdrop')
    · intro q hqg hqne
      have hq_in_sort : q ∈ m :: rest := hperm.mem_iff.mpr hqg
      rcases List.mem_cons.mp hq_in_sort with rfl | hq_rest
      · exact absurd rfl hqne
      · refine ⟨hm q hq_rest, ?_⟩
        apply mem_identify.mpr
        refine ⟨k, ?_, ?_⟩
        · rw [← hmk]
          exact key_mem_keys hme
        · rw [hsort]
          simpa using hq_rest

theorem nodup_identify (recs : List ActivityInfo) :
    (identify_duplicates recs).Nodup := by
  rw [identify_duplicates_eq]
  apply List.nodup_flatten.mpr
  constructor
  · intro l hl
    rcases List.mem_map.mp hl with ⟨k, _, rfl⟩
    have hsorted := sortCT_pairwise (groupFor_pairwise recs k)
    have hnd : (sortCT (groupFor recs k)).Nodup :=
      hsorted.imp (fun h => sortsBefore_ne h)
    exact List.Nodup.sublist (List.drop_sublist _ _) hnd
  · apply List.Pairwise.map _ ?_ (nodup_dedupFirst (recs.map unique_key))
    intro k1 k2 hne x hx1 hx2
    have h1 : unique_key x.2 = k1 :=
      (mem_groupFor.mp ((sortCT_perm _).mem_iff.mp (List.mem_of_mem_drop hx1))).2
    have h2 : unique_key x.2 = k2 :=
      (mem_groupFor.mp ((sortCT_perm _).mem_iff.mp (List.mem_of_mem_drop hx2))).2
    exact hne (by rw [← h1, ← h2])


/-- Claim C1: A fetched record appears in the remove list produced by
`identify_duplicates` iff some other fetched record has the same composite key
(date|activity type|activity name) and sorts strictly before it by creation
timestamp with fetch order breaking ties; the remove list has no repeats; in
every nonempty group sharing a composite key exactly one record is retained,
namely the minimum under that strict order (minimal creation timestamp,
earliest fetch position among ties), and every other member of the group is in
the remove list (exactly once, by the no-repeats part); a record whose
composite key is unique across the whole fetched set never appears in the
remove list. -/
theorem identify_duplicates_characterization (recs : List ActivityInfo) :
    (∀ p ∈ enumerated recs,
      (p ∈ identify_duplicates recs ↔
        ∃ q ∈ enumerated recs, q ≠ p ∧
          unique_key q.2 = unique_key p.2 ∧ sortsBefore q p))
    ∧ (identify_duplicates recs).Nodup
    ∧ (∀ k, groupFor recs k ≠ [] →
        ∃ m ∈ groupFor recs k, m ∉ identify_duplicates recs ∧
          ∀ q ∈ groupFor recs k, q ≠ m →
            sortsBefore m q ∧ q ∈ identify_duplicates recs)
    ∧ (∀ p ∈ enumerated recs,
        (∀ q ∈ enumerated recs, q ≠ p → unique_key q.2 ≠ unique_key p.2) →
        p ∉ identify_duplicates recs) := by
  refine ⟨?_, nodup_identify recs, fun _ hne => retained_min hne, ?_⟩
  · intro p hp
    rw [mem_identify_iff hp]
    constructor
    · rintro ⟨q, hq, hkey, hqp⟩
      exact ⟨q, hq, sortsBefore_ne hqp, hkey, hqp⟩
    · rintro ⟨q, hq, _, hkey, hqp⟩
      exact ⟨q, hq, hkey, hqp⟩
  · intro p hp huniq hmem
    rcases (mem_identify_iff hp).mp hmem with ⟨q, hq, hkey, hqp⟩
    exact huniq q hq (sortsBefore_ne hqp) hkey

/-- Witness for C1 on the scenario of spec section 8: the later copy of the
duplicated record is removed, the record with a unique key is not. -/
theorem identify_duplicates_characterization_witness :
    (1, demoRun2) ∈ identify_duplicates [demoRun1, demoRun2, demoRun3] ∧
    (2, demoRun3) ∉ identify_duplicates [demoRun1, demoRun2, demoRun3] := by
  have h := identify_duplicates_characterization [demoRun1, demoRun2, demoRun3]
  refine ⟨?_, ?_⟩
  · exact (h.1 (1, demoRun2) (by decide)).mpr
      ⟨(0, demoRun1), by decide, by decide, by decide, Or.inl (by decide)⟩
  · exact h.2.2.2 (2, demoRun3) (by decide) (by decide)

/-- Claim C2: In every duplicate group, later-encountered records that tie on
creation timestamp with an earlier-encountered one land in the remove list,
and the retained record of the group has the earliest fetch position among the
records tying with it: the sort of the group is stable with respect to fetch
order. -/
theorem identify_duplicates_stable_tie {recs : List ActivityInfo}
    {p q : FetchedRec} (hp : p ∈ enumerated recs) (hq : q ∈ enumerated recs)
    (hkey : unique_key p.2 = unique_key q.2)
    (hct : p.2.created_time = q.2.created_time) (hidx : p.1 < q.1) :
    q ∈ identify_duplicates recs ∧
      ∃ m ∈ groupFor recs (unique_key q.2), m ∉ identify_duplicates recs ∧
        ∀ r ∈ groupFor recs (unique_key q.2),
          r ≠ m → r.2.created_time = m.2.created_time → m.1 < r.1 := by
  constructor
  · exact (mem_identify_iff hq).mpr ⟨p, hp, hkey, Or.inr ⟨hct, hidx⟩⟩
  · have hne : groupFor recs (unique_key q.2) ≠ [] := by
      intro h0
      have hqg : q ∈ groupFor recs (unique_key q.2) := mem_groupFor.mpr ⟨hq, rfl⟩
      rw [h0] at hqg
      exact absurd hqg (List.not_mem_nil q)
    rcases retained_min hne with ⟨m, hmg, hmni, hrest⟩
    refine ⟨m, hmg, hmni, ?_⟩
    intro r hr hrne hrct
    rcases (hrest r hr hrne).1 with hlt | ⟨_, hidx'⟩
    · rw [hrct] at hlt
      rw [pyStrLt_irrefl] at hlt
      exact absurd hlt (by simp)
    · exact hidx'

/-- Witness for C2: two records with equal key and equal creation timestamp;
the one fetched second is removed and the one fetched first is retained. -/
theorem identify_duplicates_stable_tie_witness :
    (1, demoTieB) ∈ identify_duplicates [demoTieA, demoTieB] ∧
      ∃ m ∈ groupFor [demoTieA, demoTieB] (unique_key demoTieB),
        m ∉ identify_duplicates [demoTieA, demoTieB] ∧
        ∀ r ∈ groupFor [demoTieA, demoTieB] (unique_key demoTieB),
          r ≠ m → r.2.created_time = m.2.created_time → m.1 < r.1 :=
  @identify_duplicates_stable_tie [demoTieA, demoTieB] (0, demoTieA) (1, demoTieB)
    (by decide) (by decide) (by decide) (by decide) (by decide)


/-! ## Removal loop -/

theorem removeLoop_spec (ok : Nat → Bool) (ds : List FetchedRec) (i : Nat) :
    (removeLoop ok ds i).attempted = ds.map (fun d => d.2.id) ∧
    (removeLoop ok ds i).removed_count
      = ((List.range ds.length).filter (fun j => ok (i + j))).length := by
  induction ds generalizing i with
  | nil => exact ⟨rfl, rfl⟩
  | cons d rest ih =>
    rcases ih (i + 1) with ⟨ha, hc⟩
    refine ⟨by simp [removeLoop, ha], ?_⟩
    show (if ok i then 1 else 0) + (removeLoop ok rest (i + 1)).removed_count
      = ((List.range (rest.length + 1)).filter (fun j => ok (i + j))).length
    rw [hc, List.range_succ_eq_map, List.filter_cons, List.filter_map]
    have hfun : List.filter ((fun j => ok (i + j)) ∘ Nat.succ) (List.range rest.length)
        = List.filter (fun j => ok (i + 1 + j)) (List.range rest.length) := by
      apply List.filter_congr
      intro j _
      show ok (i + (j + 1)) = ok (i + 1 + j)
      have harg : i + (j + 1) = i + 1 + j := by omega
      rw [harg]
    rw [hfun]
    by_cases h0 : ok (i + 0)
    · have h0' : ok i = true := by simpa using h0
      simp [h0, h0', Nat.add_comm]
    · have h0' : ok i = false := by simpa using h0
      simp [h0, h0']

/-- Claim C7: `remove_duplicates` issues the archive requests one at a time in
list order (one request per record of the remove list, even after earlier
failures), and the reported final success count equals the number of archive
requests that succeeded out of the attempted total. -/
theorem remove_duplicates_spec (ok : Nat → Bool) (dups : List FetchedRec) :
    (remove_duplicates ok dups).attempted = dups.map (fun d => d.2.id) ∧
    (remove_duplicates ok dups).removed_count
      = ((List.range dups.length).filter ok).length := by
  unfold remove_duplicates
  by_cases he : dups.isEmpty
  · rcases List.isEmpty_iff.mp he with rfl
    simp
  · rcases removeLoop_spec ok dups 0 with ⟨ha, hc⟩
    rw [if_neg he, ha, hc]
    refine ⟨rfl, ?_⟩
    congr 1
    apply List.filter_congr
    intro j _
    show ok (0 + j) = ok j
    rw [Nat.zero_add]


/-- Claim C8: In the main flow of the Duplicate Resolver no archive request is
ever issued unless the user answered affirmatively to both confirmation
prompts: a non-affirmative first answer stops the run before anything is
fetched or analyzed and with no archive call, and a non-affirmative second
answer stops it with no archive call. -/
theorem mainFlow_requires_confirmations (c1 c2 : String)
    (pages : List (List ActivityInfo)) (ok : Nat → Bool) :
    ((mainFlow c1 c2 pages ok).archiveCalls ≠ [] →
      affirmative c1 = true ∧ affirmative c2 = true)
    ∧ (affirmative c1 = false → mainFlow c1 c2 pages ok = ⟨false, []⟩)
    ∧ (affirmative c2 = false → (mainFlow c1 c2 pages ok).archiveCalls = []) := by
  by_cases h1 : affirmative c1 = true
  · by_cases h2 : affirmative c2 = true
    · refine ⟨fun _ => ⟨h1, h2⟩, ?_, ?_⟩
      · intro hf
        simp [h1] at hf
      · intro hf
        simp [h2] at hf
    · have h2' : affirmative c2 = false := by simpa using h2
      have hcalls : (mainFlow c1 c2 pages ok).archiveCalls = [] := by
        by_cases hde : (identify_duplicates (fetchAll pages)).isEmpty = true
        · simp [mainFlow, h1, hde]
        · simp [mainFlow, h1, h2', hde]
      exact ⟨fun hne => absurd hcalls hne, fun hf => by simp [h1] at hf,
        fun _ => hcalls⟩
  · have h1' : affirmative c1 = false := by simpa using h1
    have hmf : mainFlow c1 c2 pages ok = ⟨false, []⟩ := by
      simp [mainFlow, h1']
    exact ⟨fun hne => absurd (by rw [hmf]) hne, fun _ => hmf,
      fun _ => by rw [hmf]⟩

/-- Witness for C8: answering "no" first stops before fetching with no
archive call; answering affirmatively first but "n" second stops with no
archive call even though duplicates exist. -/
theorem mainFlow_requires_confirmations_witness :
    mainFlow "no" "yes" [[demoRun1, demoRun2]] (fun _ => true) = ⟨false, []⟩ ∧
    (mainFlow " YES " "n" [[demoRun1, demoRun2]] (fun _ => true)).archiveCalls
      = [] := by
  refine ⟨?_, ?_⟩
  · exact (mainFlow_requires_confirmations "no" "yes" [[demoRun1, demoRun2]]
      (fun _ => true)).2.1 (by decide)
  · exact (mainFlow_requires_confirmations " YES " "n" [[demoRun1, demoRun2]]
      (fun _ => true)).2.2 (by decide)

/-- Claim C3: `_login_with_session` computes the session age as now minus the
stored timestamp and raises (triggering fresh login in `login`) whenever that
age exceeds 360 days; whenever the age is at most 360 days and the liveness
probe succeeds, session reuse returns the client reconstructed from the
stored blob. -/
theorem login_with_session_age (data : SessionData) (now : Int)
    (probe : ProbeOutcome) :
    (sessionMaxAge < now - data.timestamp →
      (∃ msg, (loginWithSession data now probe).result = Except.error msg) ∧
      ∀ (cfg : AuthConfig) (mode : Nat) (remoteOk : Bool) (dump : String),
        (login cfg (some ⟨data, mode⟩) false now probe remoteOk dump).usedFresh
          = true)
    ∧ (now - data.timestamp ≤ sessionMaxAge → probe = ProbeOutcome.ok →
        (loginWithSession data now probe).result = Except.ok data.session) := by
  constructor
  · intro hold
    refine ⟨⟨"Session too old", by simp [loginWithSession, hold]⟩, ?_⟩
    intro cfg mode remoteOk dump
    simp [login, loginWithSession, hold]
  · intro hyoung hprobe
    subst hprobe
    simp [loginWithSession, Int.not_lt.mpr hyoung]

/-- Witness for C3: a 400-day-old session fails reuse; a 100-day-old one with
a succeeding probe returns the reconstructed client. -/
theorem login_with_session_age_witness :
    (∃ msg, (loginWithSession ⟨"blob", 0, none⟩ (400 * microsecondsPerDay)
        ProbeOutcome.ok).result = Except.error msg) ∧
    (loginWithSession ⟨"blob", 0, none⟩ (100 * microsecondsPerDay)
        ProbeOutcome.ok).result = Except.ok "blob" := by
  refine ⟨?_, ?_⟩
  · exact ((login_with_session_age ⟨"blob", 0, none⟩ (400 * microsecondsPerDay)
      ProbeOutcome.ok).1 (by decide)).1
  · exact (login_with_session_age ⟨"blob", 0, none⟩ (100 * microsecondsPerDay)
      ProbeOutcome.ok).2 (by decide) rfl

/-- Claim C4: For a persisted session whose stored timestamp lies strictly more
than 360 days (e.g. 400 days) before the current time, `login()` without
force-refresh never issues the liveness probe and proceeds directly to fresh
login. -/
theorem stale_session_skips_probe (cfg : AuthConfig) (data : SessionData)
    (mode : Nat) (now : Int) (probe : ProbeOutcome) (remoteOk : Bool)
    (dump : String) (hold : sessionMaxAge < now - data.timestamp) :
    (login cfg (some ⟨data, mode⟩) false now probe remoteOk dump).probeIssued
        = false ∧
    (login cfg (some ⟨data, mode⟩) false now probe remoteOk dump).usedFresh
        = true := by
  simp [login, loginWithSession, hold]

/-- Witness for C4: the spec scenario, a 400-day-old session. -/
theorem stale_session_skips_probe_witness :
    (login ⟨some "user@example.com", some "pw"⟩ (some ⟨⟨"blob", 0, none⟩, 0o600⟩)
        false (400 * microsecondsPerDay) ProbeOutcome.ok true "dump").probeIssued
        = false ∧
    (login ⟨some "user@example.com", some "pw"⟩ (some ⟨⟨"blob", 0, none⟩, 0o600⟩)
        false (400 * microsecondsPerDay) ProbeOutcome.ok true "dump").usedFresh
        = true :=
  stale_session_skips_probe ⟨some "user@example.com", some "pw"⟩ ⟨"blob", 0, none⟩
    0o600 (400 * microsecondsPerDay) ProbeOutcome.ok true "dump" (by decide)

/-- Claim C6: `_fresh_login` fails with the configuration error, before any
remote authentication attempt, whenever the email or the password is
unavailable (None or empty); and fresh login is the only path that produces a
session from scratch: `login` starting with no persisted session always takes
the fresh-login path. -/
theorem fresh_login_requires_credentials (cfg : AuthConfig) (remoteOk : Bool)
    (dump : String) (now : Int) (fileBefore : Option SessionFile) :
    ((credTruthy cfg.email = false ∨ credTruthy cfg.password = false) →
      fresh_login cfg remoteOk dump now fileBefore =
        ⟨Except.error "Email and password required for fresh login", false,
          fileBefore⟩)
    ∧ ∀ (force : Bool) (probe : ProbeOutcome),
        (login cfg none force now probe remoteOk dump).usedFresh = true := by
  constructor
  · intro h
    rcases h with h | h <;> simp [fresh_login, h]
  · intro force probe
    cases force <;> rfl

/-- Witness for C6: a missing email makes `_fresh_login` fail with the
configuration error without attempting remote authentication. -/
theorem fresh_login_requires_credentials_witness :
    fresh_login ⟨none, some "pw"⟩ true "dump" 0 none =
      ⟨Except.error "Email and password required for fresh login", false,
        none⟩ :=
  (fresh_login_requires_credentials ⟨none, some "pw"⟩ true "dump" 0 none).1
    (Or.inl (by decide))

/-- Claim C9: After a successful fresh login the persisted session record is
fully replaced, independently of its prior contents: the session file holds
the newly serialized token blob, a timestamp equal to the login time, and the
account identifier, and its permissions are 0o600. -/
theorem fresh_login_replaces_session (cfg : AuthConfig) (dump : String)
    (now : Int) (fileBefore : Option SessionFile)
    (he : credTruthy cfg.email = true) (hp : credTruthy cfg.password = true) :
    fresh_login cfg true dump now fileBefore =
      ⟨Except.ok dump, true, some ⟨⟨dump, now, cfg.email⟩, 0o600⟩⟩ := by
  simp [fresh_login, he, hp]

/-- Witness for C9: a stale file with different contents and permissions is
wholly replaced by the new session record. -/
theorem fresh_login_replaces_session_witness :
    fresh_login ⟨some "user@example.com", some "pw"⟩ true "newblob" 7
        (some ⟨⟨"oldblob", 3, some "old@example.com"⟩, 0o644⟩) =
      ⟨Except.ok "newblob", true,
        some ⟨⟨"newblob", 7, some "user@example.com"⟩, 0o600⟩⟩ :=
  fresh_login_replaces_session ⟨some "user@example.com", some "pw"⟩ "newblob" 7
    (some ⟨⟨"oldblob", 3, some "old@example.com"⟩, 0o644⟩) (by decide) (by decide)

/-- Claim C10: With no persisted session file, `export_session_for_github`
raises "No session file exists. Login first." without reading the file, and
leaves the persisted session state unchanged. -/
theorem export_without_session :
    export_session_for_github none =
      ⟨Except.error "No session file exists. Login first.", false, none⟩ :=
  rfl


/-! ## Base64 round trip -/

theorem b64Index_b64Char {n : Nat} (h : n < 64) : b64Index (b64Char n) = n :=
  (by decide : ∀ m, m < 64 → b64Index (b64Char m) = m) n h

theorem b64Char_ne_pad {n : Nat} (h : n < 64) : b64Char n ≠ '=' :=
  (by decide : ∀ m, m < 64 → b64Char m ≠ '=') n h

theorem b64_roundtrip (bs : List Nat) (h : ∀ b ∈ bs, b < 256) :
    b64Decode (b64Encode bs) = bs := by
  induction bs using b64Encode.induct with
  | case1 a b c rest ih =>
    have ha : a < 256 := h a (by simp)
    have hb : b < 256 := h b (by simp)
    have hc : c < 256 := h c (by simp)
    have h1 : a / 4 < 64 := by omega
    have h2 : a % 4 * 16 + b / 16 < 64 := by omega
    have h3 : b % 16 * 4 + c / 64 < 64 := by omega
    have h4 : c % 64 < 64 := by omega
    have e1 : a / 4 * 4 + (a % 4 * 16 + b / 16) / 16 = a := by omega
    have e2 : (a % 4 * 16 + b / 16) % 16 * 16 + (b % 16 * 4 + c / 64) / 4 = b := by
      omega
    have e3 : (b % 16 * 4 + c / 64) % 4 * 64 + c % 64 = c := by omega
    have hrest : ∀ x ∈ rest, x < 256 := fun x hx => h x (by simp [hx])
    simp only [b64Encode, b64Decode]
    rw [if_neg (b64Char_ne_pad h3), if_neg (b64Char_ne_pad h4),
      b64Index_b64Char h1, b64Index_b64Char h2, b64Index_b64Char h3,
      b64Index_b64Char h4, e1, e2, e3, ih hrest]
  | case2 a b =>
    have ha : a < 256 := h a (by simp)
    have hb : b < 256 := h b (by simp)
    have h1 : a / 4 < 64 := by omega
    have h2 : a % 4 * 16 + b / 16 < 64 := by omega
    have h3 : b % 16 * 4 < 64 := by omega
    have e1 : a / 4 * 4 + (a % 4 * 16 + b / 16) / 16 = a := by omega
    have e2 : (a % 4 * 16 + b / 16) % 16 * 16 + b % 16 * 4 / 4 = b := by omega
    simp only [b64Encode, b64Decode]
    rw [if_neg (b64Char_ne_pad h3)]
    simp only [if_true]
    rw [b64Index_b64Char h1, b64Index_b64Char h2, b64Index_b64Char h3, e1, e2]
  | case3 a =>
    have ha : a < 256 := h a (by simp)
    have h1 : a / 4 < 64 := by omega
    have h2 : a % 4 * 16 < 64 := by omega
    have e1 : a / 4 * 4 + a % 4 * 16 / 16 = a := by omega
    simp only [b64Encode, b64Decode, if_true]
    rw [b64Index_b64Char h1, b64Index_b64Char h2, e1]
  | case4 => rfl

/-- Claim C5: Export then import of the persisted session file is the identity
on its bytes: `export_session_for_github` base64-encodes the raw file bytes,
`import_session_from_github` decodes them back, and the reimported file is
byte-identical to the original — the blob passes through opaque. -/
theorem export_import_roundtrip (bytes : List Nat) (mode : Nat)
    (h : ∀ b ∈ bytes, b < 256) :
    ∃ s, (export_session_for_github (some ⟨bytes, mode⟩)).result = Except.ok s ∧
      (import_session_from_github s).bytes = bytes :=
  ⟨b64Encode bytes, rfl, b64_roundtrip bytes h⟩

/-- Witness for C5 on a concrete byte string. -/
theorem export_import_roundtrip_witness :
    ∃ s, (export_session_for_github
        (some ⟨[0, 255, 77, 128], 0o640⟩)).result = Except.ok s ∧
      (import_session_from_github s).bytes = [0, 255, 77, 128] :=
  export_import_roundtrip [0, 255, 77, 128] 0o640 (by decide)

end WorkoutSync
